import Mathlib

/-!
Verification of the energy-pipeline repository's batched-retrieval,
normalization and merge/combine core against its specification.

Modelling conventions (shallow embedding of the Python sources):

- Python numbers (readings, values, raw timestamps) are modelled as `ℚ`;
  IEEE-754 rounding is out of scope, arithmetic is exact.  Rational
  division and scaling are spelled through `mkRat` on numerator and
  denominator so that the kernel can evaluate them on closed inputs;
  lemmas relate those spellings to `/` and `*` on `ℚ`.
- Python `datetime` instants in the batch retriever are modelled as `Nat`
  epoch seconds (an order-isomorphic embedding; only comparison,
  `timedelta` addition and `min` are used by the source).
- Python `dict` is modelled as an association list with the update and
  insertion-order semantics of CPython dicts: updating an existing key
  keeps its position, a new key is appended at the end.
- Python `list.sort` / `sorted` (stable Timsort) are modelled by
  `List.insertionSort`, which is stable; stable sorts with respect to a
  total preorder agree on every input.
- A raised exception in a source-adapter call is modelled as `none`;
  `some` carries the extracted readings list.
- String helpers (`str.lower`, `str.split`, `str.strip`, substring test)
  are re-implemented on `List Char` because the built-in `String`
  versions do not reduce in the kernel; only the ASCII-space behaviour
  needed by the sources is modelled.
- `datetime.fromtimestamp(...).isoformat()` is modelled by an explicit
  proleptic-Gregorian calendar computation parameterised by a fixed
  timezone offset `tzOffset` in seconds (the source uses the local
  timezone implicitly); sub-second parts round half-up to microseconds
  where CPython rounds half-even — no claim touches a tie.  CPython's
  `OverflowError`/`ValueError` fallback to `str(timestamp)` for
  out-of-range instants is modelled by the year-range guard together
  with `ratStr`.
-/

namespace EnergyPipeline

/-! ### Character-list string helpers -/

/-- Lower-case a character list; models `str.lower` for the ASCII names used
by the sources. -/
def toLowerChars (cs : List Char) : List Char :=
  cs.map Char.toLower

/-- Does `needle` occur at the head of `hay`? -/
def startsWithChars : List Char → List Char → Bool
  | [], _ => true
  | _ :: _, [] => false
  | a :: as, b :: bs => a = b && startsWithChars as bs

/-- Substring containment on character lists; models the Python
`needle in hay` test on strings. -/
def containsChars (needle : List Char) : List Char → Bool
  | [] => startsWithChars needle []
  | c :: rest => startsWithChars needle (c :: rest) || containsChars needle rest

/-- Helper for `splitWords`: `acc` holds the current word reversed. -/
def splitWordsAux (acc : List Char) : List Char → List (List Char)
  | [] => if acc = [] then [] else [acc.reverse]
  | c :: rest =>
    if c = ' ' then
      if acc = [] then splitWordsAux [] rest else acc.reverse :: splitWordsAux [] rest
    else splitWordsAux (c :: acc) rest

/-- Split on runs of spaces, dropping empty words; models `str.split()` for
the space-separated resource names used by the sources. -/
def splitWords (cs : List Char) : List (List Char) :=
  splitWordsAux [] cs

/-- Helper for `splitOnChar`: `acc` holds the current piece reversed. -/
def splitOnCharAux (sep : Char) (acc : List Char) : List Char → List (List Char)
  | [] => [acc.reverse]
  | c :: rest =>
    if c = sep then acc.reverse :: splitOnCharAux sep [] rest
    else splitOnCharAux sep (c :: acc) rest

/-- Split on a separator, keeping empty pieces; models `str.split(sep)`. -/
def splitOnChar (sep : Char) (cs : List Char) : List (List Char) :=
  splitOnCharAux sep [] cs

/-- Strip leading spaces. -/
def dropLeadingSpaces : List Char → List Char
  | [] => []
  | c :: rest => if c = ' ' then dropLeadingSpaces rest else c :: rest

/-- Strip spaces at both ends; models `str.strip()` for the space-padded CSV
fields the source guards against. -/
def trimChars (cs : List Char) : List Char :=
  (dropLeadingSpaces (dropLeadingSpaces cs.reverse)).reverse

/-! ### Calendar / ISO-8601 rendering

Models `datetime.fromtimestamp(...).isoformat()` and
`datetime.fromtimestamp(...).strftime("%Y-%m-%dT%H:%M:%S")`. -/

/-- Decimal rendering of `n` left-padded with zeros to width `w`. -/
def padZeros (w : Nat) (n : Nat) : String :=
  let s := toString n
  "".pushn '0' (w - s.length) ++ s

/-- Proleptic-Gregorian `(year, month, day)` of a day count relative to
1970-01-01 (the civil-from-days algorithm). -/
def civilFromDays (dayCount : Int) : Int × Nat × Nat :=
  let z := dayCount + 719468
  let era : Int := z.fdiv 146097
  let doe : Nat := (z - era * 146097).toNat
  let yoe : Nat := (doe - doe / 1460 + doe / 36524 - doe / 146096) / 365
  let doy : Nat := doe - (365 * yoe + yoe / 4 - yoe / 100)
  let mp : Nat := (5 * doy + 2) / 153
  let d : Nat := doy - (153 * mp + 2) / 5 + 1
  let m : Nat := if mp < 10 then mp + 3 else mp - 9
  let y : Int := (yoe : Int) + era * 400 + (if m ≤ 2 then 1 else 0)
  (y, m, d)

/-- ISO-8601 rendering of an instant given in microseconds since the epoch;
the fractional second is omitted when zero, exactly as
`datetime.isoformat()` renders it. -/
def isoOfEpochMicro (micro : Int) : String :=
  let days : Int := micro.fdiv 86400000000
  let rem : Nat := (micro - days * 86400000000).toNat
  let secOfDay : Nat := rem / 1000000
  let us : Nat := rem % 1000000
  let ymd := civilFromDays days
  let base := padZeros 4 ymd.1.toNat ++ "-" ++ padZeros 2 ymd.2.1 ++ "-" ++
    padZeros 2 ymd.2.2 ++ "T" ++ padZeros 2 (secOfDay / 3600) ++ ":" ++
    padZeros 2 (secOfDay % 3600 / 60) ++ ":" ++ padZeros 2 (secOfDay % 60)
  if us = 0 then base else base ++ "." ++ padZeros 6 us

/-- Microseconds (rounded half-up) of a rational second count: equals
`⌊s * 1000000 + 1/2⌋`, spelled on `num`/`den` so the kernel evaluates it. -/
def microsOfSeconds (s : ℚ) : Int :=
  Int.fdiv (2000000 * s.num + s.den) (2 * (s.den : Int))

/-- Canonical fallback rendering of a raw rational timestamp; stands in for
Python `str(timestamp)` on the (claim-unreachable) out-of-range branch. -/
def ratStr (t : ℚ) : String :=
  if t.den = 1 then toString t.num else toString t.num ++ "/" ++ toString t.den

/-- Timestamp-unit normalization from `convert_to_jsonl` /
`merge_consumption_and_cost_data`: a numeric timestamp above `9999999999`
is taken as milliseconds and divided by 1000, otherwise as whole seconds.
The division is spelled `mkRat t.num (t.den * 1000)`;
`timeSeconds_eq_div` proves this equals `t / 1000`. -/
def timeSeconds (t : ℚ) : ℚ :=
  if t > 9999999999 then mkRat t.num (t.den * 1000) else t

/-- ISO rendering of a raw numeric timestamp as produced by the converters:
unit-normalize, convert to an instant at timezone offset `tzOffset`
(seconds), render ISO-8601; out-of-range instants fall back to the
stringified raw value. -/
def isoTimestampOfRaw (tzOffset : Int) (t : ℚ) : String :=
  let s := timeSeconds t
  let micro : Int := microsOfSeconds s + tzOffset * 1000000
  let year := (civilFromDays (micro.fdiv 86400000000)).1
  if 1 ≤ year ∧ year ≤ 9999 then isoOfEpochMicro micro else ratStr t

theorem timeSeconds_eq_div (t : ℚ) (h : t > 9999999999) :
    timeSeconds t = t / 1000 := by
  rw [timeSeconds, if_pos h, Rat.mkRat_eq_div]
  push_cast
  rw [div_mul_eq_div_div, Rat.num_div_den]

/-! ### Association lists with CPython dict semantics -/

/-- Lookup; models `d[k]` / `d.get(k)`. -/
def dictGet {K V : Type} [DecidableEq K] (k : K) : List (K × V) → Option V
  | [] => none
  | (k0, v0) :: rest => if k0 = k then some v0 else dictGet k rest

/-- Membership; models `k in d`. -/
def dictContains {K V : Type} [DecidableEq K] (k : K) (m : List (K × V)) : Bool :=
  (dictGet k m).isSome

/-- Assignment `d[k] = v`: update in place if the key exists, else append. -/
def dictInsert {K V : Type} [DecidableEq K] (k : K) (v : V) : List (K × V) → List (K × V)
  | [] => [(k, v)]
  | (k0, v0) :: rest =>
    if k0 = k then (k0, v) :: rest else (k0, v0) :: dictInsert k v rest

/-- In-place update of the value at an existing key (identity if absent). -/
def dictModify {K V : Type} [DecidableEq K] (k : K) (f : V → V) : List (K × V) → List (K × V)
  | [] => []
  | (k0, v0) :: rest =>
    if k0 = k then (k0, f v0) :: rest else (k0, v0) :: dictModify k f rest

@[simp]
theorem dictGet_nil {K V : Type} [DecidableEq K] (k : K) :
    dictGet k ([] : List (K × V)) = none := rfl

@[simp]
theorem dictGet_insert_self {K V : Type} [DecidableEq K] (k : K) (v : V)
    (m : List (K × V)) : dictGet k (dictInsert k v m) = some v := by
  induction m with
  | nil => simp [dictInsert, dictGet]
  | cons p rest ih =>
    obtain ⟨k0, v0⟩ := p
    by_cases h : k0 = k
    · simp [dictInsert, dictGet, h]
    · simp [dictInsert, dictGet, h, ih]

@[simp]
theorem dictGet_insert_ne {K V : Type} [DecidableEq K] {k k2 : K} (v : V)
    (m : List (K × V)) (h : k2 ≠ k) :
    dictGet k2 (dictInsert k v m) = dictGet k2 m := by
  induction m with
  | nil => simp [dictInsert, dictGet, Ne.symm h]
  | cons p rest ih =>
    obtain ⟨k0, v0⟩ := p
    by_cases h0 : k0 = k
    · subst h0
      simp [dictInsert, dictGet, Ne.symm h]
    · by_cases h2 : k0 = k2 <;> simp [dictInsert, dictGet, h0, h2, ih, h]

@[simp]
theorem dictGet_modify_self {K V : Type} [DecidableEq K] (k : K) (f : V → V)
    (m : List (K × V)) : dictGet k (dictModify k f m) = (dictGet k m).map f := by
  induction m with
  | nil => simp [dictModify]
  | cons p rest ih =>
    obtain ⟨k0, v0⟩ := p
    by_cases h : k0 = k <;> simp [dictModify, dictGet, h, ih]

@[simp]
theorem dictGet_modify_ne {K V : Type} [DecidableEq K] {k k2 : K} (f : V → V)
    (m : List (K × V)) (h : k2 ≠ k) :
    dictGet k2 (dictModify k f m) = dictGet k2 m := by
  induction m with
  | nil => simp [dictModify]
  | cons p rest ih =>
    obtain ⟨k0, v0⟩ := p
    by_cases h0 : k0 = k
    · subst h0
      simp [dictModify, dictGet, Ne.symm h]
    · by_cases h2 : k0 = k2 <;> simp [dictModify, dictGet, h0, h2, ih, h]

theorem dictKeys_modify {K V : Type} [DecidableEq K] (k : K) (f : V → V)
    (m : List (K × V)) : (dictModify k f m).map Prod.fst = m.map Prod.fst := by
  induction m with
  | nil => simp [dictModify]
  | cons p rest ih =>
    obtain ⟨k0, v0⟩ := p
    by_cases h : k0 = k <;> simp [dictModify, h, ih]

theorem dictGet_isSome_iff_mem {K V : Type} [DecidableEq K] (k : K)
    (m : List (K × V)) : (dictGet k m).isSome ↔ k ∈ m.map Prod.fst := by
  induction m with
  | nil => simp [dictGet]
  | cons p rest ih =>
    obtain ⟨k0, v0⟩ := p
    by_cases h : k0 = k
    · subst h
      simp [dictGet]
    · simp [dictGet, h, ih, Ne.symm h]

theorem dictKeys_insert_of_contains {K V : Type} [DecidableEq K] {k : K} (v : V)
    {m : List (K × V)} (h : dictContains k m = true) :
    (dictInsert k v m).map Prod.fst = m.map Prod.fst := by
  induction m with
  | nil => simp [dictContains, dictGet] at h
  | cons p rest ih =>
    obtain ⟨k0, v0⟩ := p
    by_cases h0 : k0 = k
    · simp [dictInsert, h0]
    · have h2 : dictContains k rest = true := by
        simpa [dictContains, dictGet, h0] using h
      simp [dictInsert, h0, ih h2]

theorem dictKeys_insert_of_not_contains {K V : Type} [DecidableEq K] {k : K} (v : V)
    {m : List (K × V)} (h : dictContains k m = false) :
    (dictInsert k v m).map Prod.fst = m.map Prod.fst ++ [k] := by
  induction m with
  | nil => simp [dictInsert]
  | cons p rest ih =>
    obtain ⟨k0, v0⟩ := p
    by_cases h0 : k0 = k
    · exfalso
      subst h0
      simp [dictContains, dictGet] at h
    · have h2 : dictContains k rest = false := by
        simpa [dictContains, dictGet, h0] using h
      simp [dictInsert, h0, ih h2]

theorem dictKeys_insert_nodup {K V : Type} [DecidableEq K] (k : K) (v : V)
    {m : List (K × V)} (h : (m.map Prod.fst).Nodup) :
    ((dictInsert k v m).map Prod.fst).Nodup := by
  by_cases hc : dictContains k m = true
  · rwa [dictKeys_insert_of_contains v hc]
  · rw [dictKeys_insert_of_not_contains v (by simpa using hc)]
    have hk : k ∉ m.map Prod.fst := by
      rw [← dictGet_isSome_iff_mem]
      simp only [dictContains] at hc
      simpa using hc
    refine List.Nodup.append h (List.nodup_singleton k) ?_
    intro a ha ha2
    rw [List.mem_singleton] at ha2
    exact hk (ha2 ▸ ha)

theorem mem_dictInsert {K V : Type} [DecidableEq K] {k : K} {v : V}
    {m : List (K × V)} {p : K × V} (hp : p ∈ dictInsert k v m) :
    p = (k, v) ∨ p ∈ m := by
  induction m with
  | nil => simpa [dictInsert] using hp
  | cons q rest ih =>
    obtain ⟨k0, v0⟩ := q
    by_cases h0 : k0 = k
    · subst h0
      rcases (by simpa [dictInsert] using hp : p = (k0, v) ∨ p ∈ rest) with h | h
      · exact Or.inl (by simpa using h)
      · exact Or.inr (List.mem_cons_of_mem _ h)
    · rcases (by simpa [dictInsert, h0] using hp : p = (k0, v0) ∨ p ∈ dictInsert k v rest) with h | h
      · exact Or.inr (by simp [h])
      · rcases ih h with h2 | h2
        · exact Or.inl h2
        · exact Or.inr (List.mem_cons_of_mem _ h2)

theorem mem_dictModify {K V : Type} [DecidableEq K] {k : K} {f : V → V}
    {m : List (K × V)} {p : K × V} (hp : p ∈ dictModify k f m) :
    p ∈ m ∨ ∃ v0, (k, v0) ∈ m ∧ p = (k, f v0) := by
  induction m with
  | nil => simp [dictModify] at hp
  | cons q0 rest ih =>
    obtain ⟨k0, v0⟩ := q0
    by_cases h0 : k0 = k
    · subst h0
      rcases (by simpa [dictModify] using hp : p = (k0, f v0) ∨ p ∈ rest) with h | h
      · exact Or.inr ⟨v0, by simp, h⟩
      · exact Or.inl (List.mem_cons_of_mem _ h)
    · rcases (by simpa [dictModify, h0] using hp : p = (k0, v0) ∨ p ∈ dictModify k f rest) with h | h
      · exact Or.inl (by simp [h])
      · rcases ih h with h2 | h2
        · exact Or.inl (List.mem_cons_of_mem _ h2)
        · obtain ⟨v1, hv1, he⟩ := h2
          exact Or.inr ⟨v1, List.mem_cons_of_mem _ hv1, he⟩

/-! ### Sorting by timestamp -/

/-- Comparison by first component; the key function `lambda x: x[0]` of the
source's `list.sort` and `sorted` calls. -/
def keyLE {K V : Type} [LE K] (a b : K × V) : Prop := a.1 ≤ b.1

instance {K V : Type} [LinearOrder K] : DecidableRel (@keyLE K V _) :=
  fun a b => inferInstanceAs (Decidable (a.1 ≤ b.1))

instance {K V : Type} [LinearOrder K] : IsTotal (K × V) keyLE :=
  ⟨fun a b => le_total a.1 b.1⟩

instance {K V : Type} [LinearOrder K] : IsTrans (K × V) keyLE :=
  ⟨fun _ _ _ h h2 => le_trans h h2⟩

/-- Stability of the sort model: the record of elements carrying one fixed
key is untouched by sorting, exactly as Python's stable sort guarantees. -/
theorem insertionSort_filter_key {K V : Type} [LinearOrder K]
    (xs : List (K × V)) (t : K) :
    (List.insertionSort keyLE xs).filter (fun r => decide (r.1 = t)) =
      xs.filter (fun r => decide (r.1 = t)) := by
  have hall : ∀ a ∈ xs.filter (fun r => decide (r.1 = t)), a.1 = t := by
    intro a ha
    simpa using (List.mem_filter.mp ha).2
  have hsub : (xs.filter (fun r => decide (r.1 = t))).Sublist
      (List.insertionSort keyLE xs) := by
    apply List.sublist_insertionSort
    · apply List.pairwise_of_forall_mem_list
      intro a ha b hb
      show a.1 ≤ b.1
      rw [hall a ha, hall b hb]
    · exact List.filter_sublist xs
  have hfix : (xs.filter (fun r => decide (r.1 = t))).filter (fun r => decide (r.1 = t)) =
      xs.filter (fun r => decide (r.1 = t)) := by
    rw [List.filter_eq_self]
    intro a ha
    simpa using hall a ha
  have hsub2 : (xs.filter (fun r => decide (r.1 = t))).Sublist
      ((List.insertionSort keyLE xs).filter (fun r => decide (r.1 = t))) := by
    rw [← hfix]
    exact List.Sublist.filter _ hsub
  have hlen : ((List.insertionSort keyLE xs).filter (fun r => decide (r.1 = t))).length =
      (xs.filter (fun r => decide (r.1 = t))).length :=
    ((List.perm_insertionSort keyLE xs).filter _).length_eq
  exact (List.Sublist.eq_of_length hsub2 hlen.symm).symm

/-! ### Batch Retriever (src/pipeline/data_retrieval/batch_retrieval.py)

Instants are `Nat` epoch seconds; a window is a `(start, end)` pair.  The
source adapter call `self.client.get_readings(...)` followed by the
`batch_data.get("data", batch_data.get("readings", []))` extraction is
abstracted as `fetch : window → Option (List Reading)`, where `none`
models a raised exception and `some` the extracted readings list (a
response with neither key contributes `some []`, indistinguishable here
from an empty window, exactly as in the source's `all_readings.extend`). -/

/-- One raw API reading, a `[timestamp, value]` pair of numbers. -/
abbrev Reading : Type := ℚ × ℚ

/-- Seconds in `timedelta(days = d)`. -/
def timedeltaDays (days : Nat) : Nat := days * 86400

/-- Fuel-indexed model of the `while batch_start < end_date` loop of
`_calculate_batch_date_ranges`; the fuel only bounds the iteration count
and is chosen large enough (`endDate - startDate`) that it never runs out
for a positive window size. -/
def batchLoop : Nat → Nat → Nat → Nat → List (Nat × Nat)
  | 0, _, _, _ => []
  | fuel + 1, step, endDate, batchStart =>
    if batchStart < endDate then
      let batchEnd := min (batchStart + step) endDate
      if batchEnd = endDate then [(batchStart, batchEnd)]
      else (batchStart, batchEnd) :: batchLoop fuel step endDate batchEnd
    else []

/-- Model of `BatchRetriever._calculate_batch_date_ranges`. -/
def calculateBatchDateRanges (startDate endDate batchDays : Nat) : List (Nat × Nat) :=
  if startDate = endDate then [(startDate, endDate)]
  else batchLoop (endDate - startDate) (timedeltaDays batchDays) endDate startDate

/-- The per-window fetch loop of `get_readings_in_batches`: readings of
successful windows are concatenated in window order; a failed window is
logged and skipped. -/
def fetchAllWindows (fetch : Nat × Nat → Option (List Reading)) :
    List (Nat × Nat) → List Reading
  | [] => []
  | w :: ws => ((fetch w).getD []) ++ fetchAllWindows fetch ws

/-- Model of `BatchRetriever.get_readings_in_batches`: validate the range
(`ValueError`, modelled as `none`, when start is after end), split into
windows, fetch each window, flatten, stable-sort by timestamp. -/
def getReadingsInBatches (fetch : Nat × Nat → Option (List Reading))
    (startDate endDate batchDays : Nat) : Option (List Reading) :=
  if endDate < startDate then none
  else some (List.insertionSort keyLE
    (fetchAllWindows fetch (calculateBatchDateRanges startDate endDate batchDays)))

theorem fetchAllWindows_append (fetch : Nat × Nat → Option (List Reading))
    (ws1 ws2 : List (Nat × Nat)) :
    fetchAllWindows fetch (ws1 ++ ws2) =
      fetchAllWindows fetch ws1 ++ fetchAllWindows fetch ws2 := by
  induction ws1 with
  | nil => simp [fetchAllWindows]
  | cons w rest ih => simp [fetchAllWindows, ih]

theorem fetchAllWindows_length (fetch : Nat × Nat → Option (List Reading))
    (ws : List (Nat × Nat)) :
    (fetchAllWindows fetch ws).length =
      (ws.map (fun w => ((fetch w).getD []).length)).sum := by
  induction ws with
  | nil => rfl
  | cons w rest ih => simp [fetchAllWindows, ih]

/-- C1: splitting 2023-01-01T00:00:00Z .. 2023-01-31T00:00:00Z (epoch
seconds 1672531200 .. 1675123200) with a 10-day window yields exactly the
three windows (01-01, 01-11), (01-11, 01-21), (01-21, 01-31), each window
starting at the previous window's end instant (1673395200 = 2023-01-11,
1674259200 = 2023-01-21); and splitting any degenerate range (T, T) with
any window size yields exactly the single zero-length window (T, T). -/
theorem c1_window_splitting :
    calculateBatchDateRanges 1672531200 1675123200 10 =
      [(1672531200, 1673395200), (1673395200, 1674259200), (1674259200, 1675123200)] ∧
    ∀ (T batchDays : Nat), calculateBatchDateRanges T T batchDays = [(T, T)] := by
  constructor
  · decide
  · intro T batchDays
    simp [calculateBatchDateRanges]

/-- C8: when start is strictly after end, `get_readings_in_batches` fails
with the invalid-range `ValueError` (modelled `none`) for every adapter —
in particular without consulting the adapter; when start ≤ end it never
raises that error. -/
theorem c8_invalid_range :
    ∀ (startDate endDate batchDays : Nat),
      (endDate < startDate →
        ∀ fetch, getReadingsInBatches fetch startDate endDate batchDays = none) ∧
      (startDate ≤ endDate →
        ∀ fetch, (getReadingsInBatches fetch startDate endDate batchDays).isSome) := by
  intro startDate endDate batchDays
  constructor
  · intro h fetch
    simp [getReadingsInBatches, h]
  · intro h fetch
    simp [getReadingsInBatches, Nat.not_lt.mpr h]

/-- Demonstration adapter used by the C8 witness. -/
def demoFetch : Nat × Nat → Option (List Reading) := fun _ => some [(3, 1), (1, 2)]

/-- Witness for C8 at a concrete inverted and a concrete valid range. -/
theorem c8_invalid_range_witness :
    getReadingsInBatches demoFetch 1675123200 1672531200 10 = none ∧
    (getReadingsInBatches demoFetch 1672531200 1675123200 10).isSome :=
  ⟨(c8_invalid_range 1675123200 1672531200 10).1 (by decide) demoFetch,
   (c8_invalid_range 1672531200 1675123200 10).2 (by decide) demoFetch⟩

/-- C4: whatever the per-window adapter results (out of order or
overlapping across windows), a successful retrieval returns the flattened
window results sorted non-decreasingly by timestamp — a permutation of the
flattened sequence on which readings of equal timestamp keep their
original relative order (stable sort). -/
theorem c4_ordering_invariant :
    ∀ (fetch : Nat × Nat → Option (List Reading)) (startDate endDate batchDays : Nat)
      (l : List Reading),
      getReadingsInBatches fetch startDate endDate batchDays = some l →
      List.Pairwise keyLE l ∧
      l.Perm (fetchAllWindows fetch (calculateBatchDateRanges startDate endDate batchDays)) ∧
      ∀ t : ℚ, l.filter (fun r => decide (r.1 = t)) =
        (fetchAllWindows fetch (calculateBatchDateRanges startDate endDate batchDays)).filter
          (fun r => decide (r.1 = t)) := by
  intro fetch startDate endDate batchDays l h
  rw [getReadingsInBatches] at h
  by_cases hr : endDate < startDate
  · simp [hr] at h
  · rw [if_neg hr, Option.some.injEq] at h
    subst h
    exact ⟨List.sorted_insertionSort keyLE _, List.perm_insertionSort keyLE _,
      fun t => insertionSort_filter_key _ t⟩

/-- Demonstration adapter for the C4 witness: the first window returns
out-of-order readings, the second window overlaps the first at timestamp 3. -/
def demoFetchC4 : Nat × Nat → Option (List Reading) :=
  fun w => if w.1 = 1672531200 then some [(5, 1), (3, 2)] else some [(3, 7), (1, 0)]

/-- Witness for C4 on a two-window retrieval with unsorted, overlapping
adapter results. -/
theorem c4_ordering_invariant_witness :
    getReadingsInBatches demoFetchC4 1672531200 1674259200 10 =
      some [(1, 0), (3, 2), (3, 7), (5, 1)] ∧
    List.Pairwise keyLE [((1 : ℚ), (0 : ℚ)), (3, 2), (3, 7), (5, 1)] :=
  have h : getReadingsInBatches demoFetchC4 1672531200 1674259200 10 =
      some [(1, 0), (3, 2), (3, 7), (5, 1)] := by decide
  ⟨h, (c4_ordering_invariant demoFetchC4 1672531200 1674259200 10 _ h).1⟩

/-- C5: when the adapter raises on exactly one window `w` of a valid
retrieval and succeeds on every other window, the retriever neither raises
nor discards the other windows: it returns exactly the readings of the
remaining windows, concatenated in window order and sorted. -/
theorem c5_partial_failure :
    ∀ (fetch : Nat × Nat → Option (List Reading)) (startDate endDate batchDays : Nat)
      (pre post : List (Nat × Nat)) (w : Nat × Nat),
      startDate ≤ endDate →
      calculateBatchDateRanges startDate endDate batchDays = pre ++ w :: post →
      fetch w = none →
      (∀ w2 ∈ pre ++ post, (fetch w2).isSome) →
      getReadingsInBatches fetch startDate endDate batchDays =
        some (List.insertionSort keyLE
          (fetchAllWindows fetch pre ++ fetchAllWindows fetch post)) := by
  intro fetch startDate endDate batchDays pre post w hle hranges hfail _hok
  rw [getReadingsInBatches, if_neg (Nat.not_lt.mpr hle), hranges]
  have : fetchAllWindows fetch (pre ++ w :: post) =
      fetchAllWindows fetch pre ++ fetchAllWindows fetch post := by
    rw [fetchAllWindows_append]
    simp [fetchAllWindows, hfail]
  rw [this]

/-- Demonstration adapter for the C5 witness: fails on the first window. -/
def demoFetchC5 : Nat × Nat → Option (List Reading) :=
  fun w => if w.1 = 1672531200 then none else some [(5, 1), (3, 2)]

/-- Witness for C5: a two-window retrieval whose first window raises still
returns the second window's readings, sorted. -/
theorem c5_partial_failure_witness :
    calculateBatchDateRanges 1672531200 1674259200 10 =
      [] ++ (1672531200, 1673395200) :: [(1673395200, 1674259200)] ∧
    demoFetchC5 (1672531200, 1673395200) = none ∧
    getReadingsInBatches demoFetchC5 1672531200 1674259200 10 =
      some (List.insertionSort keyLE
        (fetchAllWindows demoFetchC5 [] ++ fetchAllWindows demoFetchC5 [(1673395200, 1674259200)])) :=
  have h1 : calculateBatchDateRanges 1672531200 1674259200 10 =
      [] ++ (1672531200, 1673395200) :: [(1673395200, 1674259200)] := by decide
  have h2 : demoFetchC5 (1672531200, 1673395200) = none := by decide
  ⟨h1, h2, c5_partial_failure demoFetchC5 1672531200 1674259200 10
    [] [(1673395200, 1674259200)] (1672531200, 1673395200)
    (by decide) h1 h2 (by decide)⟩

/-- C9: the retriever never deduplicates — on an all-successful retrieval
the returned list's length is the sum of the per-window reading counts, so
a timestamp fetched by two overlapping windows is present twice. -/
theorem c9_no_dedup :
    ∀ (fetch : Nat × Nat → Option (List Reading)) (startDate endDate batchDays : Nat)
      (l : List Reading),
      getReadingsInBatches fetch startDate endDate batchDays = some l →
      (∀ w ∈ calculateBatchDateRanges startDate endDate batchDays, (fetch w).isSome) →
      l.length = ((calculateBatchDateRanges startDate endDate batchDays).map
        (fun w => ((fetch w).getD []).length)).sum := by
  intro fetch startDate endDate batchDays l h _hok
  rw [getReadingsInBatches] at h
  by_cases hr : endDate < startDate
  · simp [hr] at h
  · rw [if_neg hr, Option.some.injEq] at h
    subst h
    rw [(List.perm_insertionSort keyLE _).length_eq, fetchAllWindows_length]

/-- Demonstration adapter for the C9 witness: both windows return the same
single reading, so its timestamp appears twice in the output. -/
def demoFetchC9 : Nat × Nat → Option (List Reading) := fun _ => some [(7, 1)]

/-- Witness for C9: two overlapping-by-value windows produce a list of
length 2 = 1 + 1, with the duplicate retained. -/
theorem c9_no_dedup_witness :
    getReadingsInBatches demoFetchC9 1672531200 1674259200 10 = some [(7, 1), (7, 1)] ∧
    (List.length [((7 : ℚ), (1 : ℚ)), (7, 1)]) =
      ((calculateBatchDateRanges 1672531200 1674259200 10).map
        (fun w => ((demoFetchC9 w).getD []).length)).sum :=
  have h : getReadingsInBatches demoFetchC9 1672531200 1674259200 10 =
      some [(7, 1), (7, 1)] := by decide
  ⟨h, c9_no_dedup demoFetchC9 1672531200 1674259200 10 _ h (by decide)⟩

/-! ### Merge engine (src/pipeline/data_processing/jsonl_converter.py,
`merge_consumption_and_cost_data`)

A raw readings-array entry is either a JSON list of numbers or some other
JSON value; entries that are not lists of at least two elements are
skipped.  Non-numeric timestamps (which the source stringifies) are
outside this model: the claims only exercise numeric rows. -/

/-- One entry of a raw `data`/`readings` array. -/
inductive RawRow
  | listRow (elems : List ℚ)
  | nonList
deriving DecidableEq

/-- The `isinstance(reading, list) and len(reading) >= 2` guard together
with the `reading[0], reading[1]` destructuring. -/
def RawRow.asPair : RawRow → Option (ℚ × ℚ)
  | .listRow (t :: v :: _) => some (t, v)
  | _ => none

/-- One merged record of `merge_consumption_and_cost_data`, keyed by raw
timestamp; `none` models JSON `null`. -/
structure MergedReading where
  timestamp : ℚ
  timestamp_iso : String
  consumption_value : Option ℚ
  cost_value : Option ℚ
deriving DecidableEq

/-- Body of the first loop of `merge_consumption_and_cost_data`: every
valid consumption row (re)assigns the whole record at its timestamp, with
`cost_value` reset to null. -/
def consumptionStep (tz : Int) (m : List (ℚ × MergedReading)) (r : RawRow) :
    List (ℚ × MergedReading) :=
  match r.asPair with
  | none => m
  | some (t, v) => dictInsert t ⟨t, isoTimestampOfRaw tz t, some v, none⟩ m

/-- Body of the second loop: a valid cost row updates `cost_value` in
place when its timestamp is already present, else inserts a record whose
`consumption_value` is null. -/
def costStep (tz : Int) (m : List (ℚ × MergedReading)) (r : RawRow) :
    List (ℚ × MergedReading) :=
  match r.asPair with
  | none => m
  | some (t, v) =>
    if dictContains t m then
      dictModify t (fun r0 => { r0 with cost_value := some v }) m
    else dictInsert t ⟨t, isoTimestampOfRaw tz t, none, some v⟩ m

/-- Model of `EnergyDataConverter.merge_consumption_and_cost_data`
restricted to its readings logic (metadata extraction is keyed off the
documents and does not affect the merged mapping). -/
def mergeConsumptionAndCostData (tz : Int)
    (consumptionReadings costReadings : List RawRow) : List (ℚ × MergedReading) :=
  costReadings.foldl (costStep tz) (consumptionReadings.foldl (consumptionStep tz) [])

/-- Value of the last valid row carrying timestamp `t`, if any. -/
def lastValue : List RawRow → ℚ → Option ℚ
  | [], _ => none
  | r :: rest, t =>
    match lastValue rest t with
    | some v => some v
    | none =>
      match r.asPair with
      | some (t0, v) => if t0 = t then some v else none
      | none => none

theorem foldl_consumptionStep_dictGet (tz : Int) (rows : List RawRow)
    (m : List (ℚ × MergedReading)) (t : ℚ) :
    dictGet t (rows.foldl (consumptionStep tz) m) =
      (lastValue rows t).elim (dictGet t m)
        (fun v => some ⟨t, isoTimestampOfRaw tz t, some v, none⟩) := by
  induction rows generalizing m with
  | nil => simp [lastValue]
  | cons r rest ih =>
    rw [List.foldl_cons, ih]
    cases hl : lastValue rest t with
    | some v => simp [lastValue, hl]
    | none =>
      cases hp : r.asPair with
      | none => simp [lastValue, hl, hp, consumptionStep]
      | some tv =>
        obtain ⟨t0, v⟩ := tv
        by_cases ht : t0 = t
        · subst ht
          simp [lastValue, hl, hp, consumptionStep]
        · simp [lastValue, hl, hp, consumptionStep, ht,
            dictGet_insert_ne _ _ (Ne.symm ht)]

theorem foldl_costStep_dictGet (tz : Int) (rows : List RawRow)
    (m : List (ℚ × MergedReading)) (t : ℚ) :
    dictGet t (rows.foldl (costStep tz) m) =
      (lastValue rows t).elim (dictGet t m)
        (fun v => some ((dictGet t m).elim ⟨t, isoTimestampOfRaw tz t, none, some v⟩
          (fun r0 => { r0 with cost_value := some v }))) := by
  induction rows generalizing m with
  | nil => simp [lastValue]
  | cons r rest ih =>
    rw [List.foldl_cons, ih]
    cases hp : r.asPair with
    | none =>
      cases hl : lastValue rest t <;>
        simp [lastValue, hl, hp, costStep]
    | some tv =>
      obtain ⟨t0, v0⟩ := tv
      by_cases ht : t0 = t
      · subst ht
        by_cases hc : dictContains t0 m
        · rcases Option.isSome_iff_exists.mp (by simpa [dictContains] using hc) with ⟨r0, hr0⟩
          cases hl : lastValue rest t0 <;>
            simp [lastValue, hl, hp, costStep, hc, hr0]
        · have hn : dictGet t0 m = none :=
            Option.not_isSome_iff_eq_none.mp (by simpa [dictContains] using hc)
          cases hl : lastValue rest t0 <;>
            simp [lastValue, hl, hp, costStep, hc, hn]
      · cases hl : lastValue rest t <;>
          by_cases hc : dictContains t0 m <;>
            simp [lastValue, hl, hp, costStep, hc, ht,
              dictGet_insert_ne _ _ (Ne.symm ht), dictGet_modify_ne _ _ (Ne.symm ht)]

/-- Full characterization of the merged mapping at any timestamp: present
iff some valid row of either series carries it; the stored values are
those of the last such rows, with the absent side null. -/
theorem merge_dictGet (tz : Int) (consRows costRows : List RawRow) (t : ℚ) :
    dictGet t (mergeConsumptionAndCostData tz consRows costRows) =
      if lastValue consRows t = none ∧ lastValue costRows t = none then none
      else some ⟨t, isoTimestampOfRaw tz t, lastValue consRows t, lastValue costRows t⟩ := by
  rw [mergeConsumptionAndCostData, foldl_costStep_dictGet, foldl_consumptionStep_dictGet]
  cases hc : lastValue consRows t <;> cases hk : lastValue costRows t <;> simp

/-- Generic preservation of a predicate along `List.foldl`. -/
theorem foldl_preserve {α β : Type} (P : β → Prop) (f : β → α → β)
    (hf : ∀ b a, P b → P (f b a)) (l : List α) :
    ∀ b : β, P b → P (l.foldl f b) := by
  induction l with
  | nil => exact fun b hb => hb
  | cons a l ih => exact fun b hb => ih (f b a) (hf b a hb)

theorem consumptionStep_keys_nodup (tz : Int) (m : List (ℚ × MergedReading)) (r : RawRow)
    (h : (m.map Prod.fst).Nodup) : ((consumptionStep tz m r).map Prod.fst).Nodup := by
  cases hp : r.asPair with
  | none => simpa [consumptionStep, hp] using h
  | some tv => simpa [consumptionStep, hp] using dictKeys_insert_nodup tv.1 _ h

theorem costStep_keys_nodup (tz : Int) (m : List (ℚ × MergedReading)) (r : RawRow)
    (h : (m.map Prod.fst).Nodup) : ((costStep tz m r).map Prod.fst).Nodup := by
  cases hp : r.asPair with
  | none => simpa [costStep, hp] using h
  | some tv =>
    by_cases hc : dictContains tv.1 m
    · rw [costStep, hp]
      simpa [hc, dictKeys_modify] using h
    · rw [costStep, hp]
      simpa [hc] using dictKeys_insert_nodup tv.1 _ h

theorem merge_keys_nodup (tz : Int) (consRows costRows : List RawRow) :
    ((mergeConsumptionAndCostData tz consRows costRows).map Prod.fst).Nodup := by
  rw [mergeConsumptionAndCostData]
  refine foldl_preserve (fun m => (m.map Prod.fst).Nodup) _
    (fun m r hm => costStep_keys_nodup tz m r hm) _ _ ?_
  refine foldl_preserve (fun m => (m.map Prod.fst).Nodup) _
    (fun m r hm => consumptionStep_keys_nodup tz m r hm) _ _ ?_
  simp

theorem foldl_step_filter_valid
    {step : List (ℚ × MergedReading) → RawRow → List (ℚ × MergedReading)}
    (hstep : ∀ m r, r.asPair = none → step m r = m) (rows : List RawRow) :
    ∀ m, (rows.filter (fun r => r.asPair.isSome)).foldl step m = rows.foldl step m := by
  induction rows with
  | nil => intro m; rfl
  | cons r rest ih =>
    intro m
    cases hp : r.asPair with
    | none => simp [List.filter_cons, hp, hstep m r hp, ih]
    | some tv => simp [List.filter_cons, hp, ih]

/-- C10: within one series the later occurrence of a duplicated timestamp
wins — the merged record carries the last consumption value and the last
cost value seen for that timestamp — and rows that are not lists of at
least two elements are skipped without affecting the rest of the merge. -/
theorem c10_last_occurrence_wins :
    (∀ (tz : Int) (consRows costRows : List RawRow) (t : ℚ),
      dictGet t (mergeConsumptionAndCostData tz consRows costRows) =
        if lastValue consRows t = none ∧ lastValue costRows t = none then none
        else some ⟨t, isoTimestampOfRaw tz t, lastValue consRows t, lastValue costRows t⟩) ∧
    (∀ (tz : Int) (consRows costRows : List RawRow),
      mergeConsumptionAndCostData tz (consRows.filter (fun r => r.asPair.isSome))
          (costRows.filter (fun r => r.asPair.isSome)) =
        mergeConsumptionAndCostData tz consRows costRows) := by
  constructor
  · exact merge_dictGet
  · intro tz consRows costRows
    rw [mergeConsumptionAndCostData, mergeConsumptionAndCostData,
      foldl_step_filter_valid (fun m r hp => by rw [costStep, hp]) costRows,
      foldl_step_filter_valid (fun m r hp => by rw [consumptionStep, hp]) consRows]

/-- C3: every timestamp occurring in a valid row of either series appears
exactly once in the merged mapping (keys are unique, membership is exactly
presence in either series); the side with no reading at that timestamp is
null — never 0; and merging consumption {t1: 5} with cost {t2: 3} over
disjoint timestamps yields exactly the two records
(t1, consumption = 5, cost = null) and (t2, consumption = null, cost = 3). -/
theorem c3_merge_nullability :
    (∀ (tz : Int) (consRows costRows : List RawRow),
      ((mergeConsumptionAndCostData tz consRows costRows).map Prod.fst).Nodup ∧
      ∀ t : ℚ,
        (dictContains t (mergeConsumptionAndCostData tz consRows costRows) = true ↔
          (lastValue consRows t).isSome ∨ (lastValue costRows t).isSome) ∧
        ((lastValue consRows t).isSome → lastValue costRows t = none →
          dictGet t (mergeConsumptionAndCostData tz consRows costRows) =
            some ⟨t, isoTimestampOfRaw tz t, lastValue consRows t, none⟩) ∧
        (lastValue consRows t = none → (lastValue costRows t).isSome →
          dictGet t (mergeConsumptionAndCostData tz consRows costRows) =
            some ⟨t, isoTimestampOfRaw tz t, none, lastValue costRows t⟩)) ∧
    (∀ (tz : Int) (t1 t2 : ℚ), t1 ≠ t2 →
      mergeConsumptionAndCostData tz [RawRow.listRow [t1, 5]] [RawRow.listRow [t2, 3]] =
        [(t1, ⟨t1, isoTimestampOfRaw tz t1, some 5, none⟩),
         (t2, ⟨t2, isoTimestampOfRaw tz t2, none, some 3⟩)]) := by
  constructor
  · intro tz consRows costRows
    refine ⟨merge_keys_nodup tz consRows costRows, fun t => ⟨?_, ?_, ?_⟩⟩
    · rw [dictContains, merge_dictGet]
      by_cases hc : lastValue consRows t = none <;>
        by_cases hk : lastValue costRows t = none <;>
          simp [hc, hk, Option.isSome_iff_ne_none]
    · intro hc hk
      rw [merge_dictGet, if_neg (by simp [hk, Option.isSome_iff_ne_none.mp hc]), hk]
    · intro hc hk
      rw [merge_dictGet, if_neg (by simp [hc, Option.isSome_iff_ne_none.mp hk]), hc]
  · intro tz t1 t2 h
    simp [mergeConsumptionAndCostData, consumptionStep, costStep, RawRow.asPair,
      dictInsert, dictContains, dictGet, h]

/-- Witness for C3 at t1 = 1, t2 = 2 (tz = 0). -/
theorem c3_merge_nullability_witness :
    (1 : ℚ) ≠ 2 ∧
    mergeConsumptionAndCostData 0 [RawRow.listRow [1, 5]] [RawRow.listRow [2, 3]] =
      [(1, ⟨1, isoTimestampOfRaw 0 1, some 5, none⟩),
       (2, ⟨2, isoTimestampOfRaw 0 2, none, some 3⟩)] :=
  ⟨by norm_num, c3_merge_nullability.2 0 1 2 (by norm_num)⟩

/-- C6: the converters' unit detection — a numeric raw timestamp strictly
above 9999999999 is treated as milliseconds and divided by 1000, any other
is taken as whole seconds; hence the 13-digit 1620000000000 renders to the
same ISO instant as the 10-digit 1620000000, namely 2021-05-03T00:00:00
(UTC rendering). -/
theorem c6_timestamp_unit_detection :
    (∀ t : ℚ, t > 9999999999 → timeSeconds t = t / 1000) ∧
    (∀ t : ℚ, t ≤ 9999999999 → timeSeconds t = t) ∧
    (∀ tzOffset : Int, -86400 ≤ tzOffset → tzOffset ≤ 86400 →
      isoTimestampOfRaw tzOffset 1620000000000 = isoTimestampOfRaw tzOffset 1620000000) ∧
    isoTimestampOfRaw 0 1620000000 = "2021-05-03T00:00:00" := by
  refine ⟨timeSeconds_eq_div, ?_, ?_, by decide⟩
  · intro t h
    rw [timeSeconds, if_neg (not_lt.mpr h)]
  · intro tzOffset hlo hhi
    rw [isoTimestampOfRaw, isoTimestampOfRaw,
      show timeSeconds 1620000000000 = timeSeconds 1620000000 from by decide,
      show microsOfSeconds (timeSeconds 1620000000) = 1620000000000000 from by decide]
    set d : Int := (1620000000000000 + tzOffset * 1000000).fdiv 86400000000 with hd
    have hdb : 18748 ≤ d ∧ d ≤ 18751 := by
      rw [hd, Int.fdiv_eq_ediv _ (by norm_num)]
      omega
    have hy : 1 ≤ (civilFromDays d).1 ∧ (civilFromDays d).1 ≤ 9999 := by
      obtain ⟨h1, h2⟩ := hdb
      interval_cases d <;> decide
    rw [if_pos hy, if_pos hy]

/-- Witness for C6 on the two concrete raw timestamps of the claim. -/
theorem c6_timestamp_unit_detection_witness :
    ((1620000000000 : ℚ) > 9999999999 ∧
      timeSeconds 1620000000000 = 1620000000000 / 1000) ∧
    ((1620000000 : ℚ) ≤ 9999999999 ∧ timeSeconds 1620000000 = 1620000000) ∧
    isoTimestampOfRaw 0 1620000000000 = isoTimestampOfRaw 0 1620000000 :=
  ⟨⟨by decide, c6_timestamp_unit_detection.1 _ (by decide)⟩,
   ⟨by decide, c6_timestamp_unit_detection.2.1 _ (by decide)⟩,
   c6_timestamp_unit_detection.2.2.1 0 (by decide) (by decide)⟩

/-! ### Local File Adapter (src/pipeline/data_retrieval/n3rgy_csv_client.py,
`transform_csv_to_json`)

CSV rows with fewer than two columns are skipped before this model.  The
Python library parsers `datetime.strptime(...).timestamp()` and `float`
are treated as oracles `parseTs` / `parseNum` returning `none` on a raised
parse error. -/

/-- One CSV data row: `row[0]`, `row[1]`, and `row[2]` when present. -/
structure CsvRow where
  timestampField : String
  consumptionField : String
  costField : Option String
deriving DecidableEq

/-- The `float(cost_value_string) * 100` conversion of pounds-per-day to
pence, spelled on `num`/`den` so the kernel evaluates it;
`costTimes100_eq` proves it is multiplication by 100. -/
def costTimes100 (c : ℚ) : ℚ := mkRat (100 * c.num) c.den

theorem costTimes100_eq (c : ℚ) : costTimes100 c = c * 100 := by
  calc costTimes100 c = ((100 * c.num : Int) : ℚ) / ((c.den : Nat) : ℚ) := by
        rw [costTimes100, Rat.mkRat_eq_div]
    _ = 100 * ((c.num : ℚ) / (c.den : ℚ)) := by push_cast; ring
    _ = c * 100 := by rw [Rat.num_div_den c, mul_comm]

/-- Loop body of `transform_csv_to_json` for one CSV row: returns the
consumption points and cost points the row contributes.  Mirrors the
source's control flow, including the detail that a cost parse error is
raised after the consumption point was already appended. -/
def transformRow (parseTs : String → Option Int) (parseNum : String → Option ℚ)
    (extractCostData : Bool) (r : CsvRow) : List (Int × ℚ) × List (Int × ℚ) :=
  if r.consumptionField = "" ∨ r.consumptionField = "energyConsumption (kWh)" then ([], [])
  else
    match parseTs r.timestampField with
    | none => ([], [])
    | some ts =>
      match parseNum r.consumptionField with
      | none => ([], [])
      | some c =>
        match r.costField with
        | none => ([(ts, c)], [])
        | some costStr =>
          if extractCostData = true ∧ costStr ≠ "" ∧ costStr ≠ "current £/day" ∧
              trimChars costStr.toList ≠ [] then
            match parseNum costStr with
            | none => ([(ts, c)], [])
            | some cv => ([(ts, c)], [(ts, costTimes100 cv)])
          else ([(ts, c)], [])

/-- Model of the row loop of `transform_csv_to_json`: the
`consumption_data_points` and `cost_data_points` arrays it accumulates. -/
def transformCsvToJson (parseTs : String → Option Int) (parseNum : String → Option ℚ)
    (extractCostData : Bool) (rows : List CsvRow) : List (Int × ℚ) × List (Int × ℚ) :=
  rows.foldl (fun acc r =>
    let pr := transformRow parseTs parseNum extractCostData r
    (acc.1 ++ pr.1, acc.2 ++ pr.2)) ([], [])

theorem transformRow_cost_spec (parseTs : String → Option Int)
    (parseNum : String → Option ℚ) (e : Bool) (r : CsvRow) (p : Int × ℚ)
    (hp : p ∈ (transformRow parseTs parseNum e r).2) :
    ∃ s c, r.costField = some s ∧ parseNum s = some c ∧ p.2 = c * 100 := by
  unfold transformRow at hp
  split at hp
  next => simp at hp
  next h1 =>
    split at hp
    next => simp at hp
    next ts hts =>
      split at hp
      next => simp at hp
      next c hc =>
        split at hp
        next => simp at hp
        next costStr hcost =>
          split at hp
          next h4 =>
            split at hp
            next => simp at hp
            next cv hcv =>
              refine ⟨costStr, cv, hcost, hcv, ?_⟩
              have hpp : p = (ts, costTimes100 cv) := by simpa using hp
              rw [hpp]
              exact costTimes100_eq cv
          next => simp at hp

theorem transformCsvToJson_mem_cost (parseTs : String → Option Int)
    (parseNum : String → Option ℚ) (e : Bool) (rows : List CsvRow) :
    ∀ (acc : List (Int × ℚ) × List (Int × ℚ)) (p : Int × ℚ),
      p ∈ (rows.foldl (fun acc r =>
        let pr := transformRow parseTs parseNum e r
        (acc.1 ++ pr.1, acc.2 ++ pr.2)) acc).2 →
      p ∈ acc.2 ∨ ∃ r ∈ rows, p ∈ (transformRow parseTs parseNum e r).2 := by
  induction rows with
  | nil => exact fun acc p hp => Or.inl hp
  | cons r rest ih =>
    intro acc p hp
    rcases ih _ p hp with h | h
    · rcases List.mem_append.mp h with h | h
      · exact Or.inl h
      · exact Or.inr ⟨r, by simp, h⟩
    · obtain ⟨r2, hr2, hp2⟩ := h
      exact Or.inr ⟨r2, List.mem_cons_of_mem _ hr2, hp2⟩

/-- C7: every cost reading stored by the CSV transform carries exactly the
parsed CSV cost number multiplied by 100 (pounds-per-day to pence); the
conversion is multiplication by 100, and 0.0456 (= 57/1250) converts to
4.56 (= 456/100). -/
theorem c7_cost_unit_conversion :
    (∀ (parseTs : String → Option Int) (parseNum : String → Option ℚ)
      (extractCostData : Bool) (rows : List CsvRow) (p : Int × ℚ),
      p ∈ (transformCsvToJson parseTs parseNum extractCostData rows).2 →
      ∃ r ∈ rows, ∃ s c, r.costField = some s ∧ parseNum s = some c ∧ p.2 = c * 100) ∧
    (∀ c : ℚ, costTimes100 c = c * 100) ∧
    costTimes100 (mkRat 57 1250) = mkRat 456 100 := by
  refine ⟨?_, costTimes100_eq, by decide⟩
  intro parseTs parseNum e rows p hp
  rcases transformCsvToJson_mem_cost parseTs parseNum e rows ([], []) p hp with h | h
  · simp at h
  · obtain ⟨r, hr, hp2⟩ := h
    exact ⟨r, hr, transformRow_cost_spec parseTs parseNum e r p hp2⟩

/-- Demonstration timestamp parser for the C7 witness. -/
def demoParseTs : String → Option Int :=
  fun s => if s = "2025-05-01 00:00" then some 1746057600 else none

/-- Demonstration number parser for the C7 witness. -/
def demoParseNum : String → Option ℚ :=
  fun s =>
    if s = "0.0456" then some (mkRat 57 1250)
    else if s = "0.123" then some (mkRat 123 1000) else none

/-- Witness for C7: the CSV row (2025-05-01 00:00, 0.123, 0.0456) stores
the cost point 4.56 = 0.0456 * 100. -/
theorem c7_cost_unit_conversion_witness :
    ((1746057600, mkRat 456 100) ∈
      (transformCsvToJson demoParseTs demoParseNum true
        [⟨"2025-05-01 00:00", "0.123", some "0.0456"⟩]).2) ∧
    ∃ r ∈ [(⟨"2025-05-01 00:00", "0.123", some "0.0456"⟩ : CsvRow)], ∃ s c,
      r.costField = some s ∧ demoParseNum s = some c ∧
      (((1746057600 : Int), mkRat 456 100)).2 = c * 100 :=
  have h : ((1746057600 : Int), mkRat 456 100) ∈
      (transformCsvToJson demoParseTs demoParseNum true
        [⟨"2025-05-01 00:00", "0.123", some "0.0456"⟩]).2 := by decide
  ⟨h, c7_cost_unit_conversion.1 demoParseTs demoParseNum true _ _ h⟩

/-! ### N-way combine-all, Glowmarkt side
(jsonl_converter.combine_all_resources_into_single_file)

The directory discovery (`find_matching_resource_files`) yields a list of
(consumption document, cost document) pairs; the combination core (lines
359-399) is modelled on those pairs.  A wide record's dynamic
`{type}_{consumption|cost}` fields are an association list of JSON values
(`Option ℚ`, `none` = null); a missing key models a field absent from the
emitted JSON object. -/

/-- Model of `EnergyDataConverter.extract_resource_type`. -/
def extractResourceType (resourceName : String) : String :=
  let words := splitWords (toLowerChars resourceName.toList)
  match words with
  | [] => "energy"
  | w :: _ =>
    if w = "electricity".toList ∨ w = "gas".toList ∨ w = "water".toList then String.mk w
    else "energy"

/-- The parts of a raw resource document that feed the combination core:
the resolved resource name and the readings array. -/
structure SourceDoc where
  resource_name : String
  readings : List RawRow
deriving DecidableEq

/-- One wide record of the combined output. -/
structure WideRecord where
  timestamp : ℚ
  timestamp_iso : String
  fields : List (String × Option ℚ)
deriving DecidableEq

/-- Inner loop body of `combine_all_resources_into_single_file`: ensure a
base record exists at the timestamp, then assign the two
`{type}_consumption` / `{type}_cost` fields from the merged reading. -/
def wideStep (rtype : String) (m : List (ℚ × WideRecord)) (tr : ℚ × MergedReading) :
    List (ℚ × WideRecord) :=
  let m2 := if dictContains tr.1 m then m else dictInsert tr.1 ⟨tr.1, tr.2.timestamp_iso, []⟩ m
  let setFields := fun (w : WideRecord) =>
    { w with fields := dictInsert (rtype ++ "_cost") tr.2.cost_value (dictInsert (rtype ++ "_consumption") tr.2.consumption_value w.fields) }
  dictModify tr.1 setFields m2

/-- Outer loop body: merge one (consumption, cost) pair via
`merge_consumption_and_cost_data` and fold its records in. -/
def pairStep (tz : Int) (m : List (ℚ × WideRecord)) (pair : SourceDoc × SourceDoc) :
    List (ℚ × WideRecord) :=
  let merged := mergeConsumptionAndCostData tz pair.1.readings pair.2.readings
  let rtype := extractResourceType pair.1.resource_name
  merged.foldl (wideStep rtype) m

/-- Model of `combine_all_resources_into_single_file` (readings part): fold
all discovered pairs, then emit records sorted by timestamp. -/
def combineAllResourcesIntoSingleFile (tz : Int)
    (pairs : List (SourceDoc × SourceDoc)) : List (ℚ × WideRecord) :=
  List.insertionSort keyLE (pairs.foldl (pairStep tz) [])

/-- C2 counterexample: combining a single electricity pair whose cost file
has no readings produces a record that omits both gas fields entirely and
stores null (not 0) in `electricity_cost` — the claimed uniform zero-filled
type-by-category field set does not hold for this operation. -/
theorem c2_counterexample :
    combineAllResourcesIntoSingleFile 0
        [(⟨"electricity consumption", [RawRow.listRow [100, 5]]⟩,
          ⟨"electricity cost", []⟩)] =
      [(100, ⟨100, isoTimestampOfRaw 0 100,
        [("electricity_consumption", some 5), ("electricity_cost", none)]⟩)] ∧
    dictGet "gas_consumption"
      [("electricity_consumption", some (5 : ℚ)), ("electricity_cost", (none : Option ℚ))] =
      none ∧
    dictGet "electricity_cost"
      [("electricity_consumption", some (5 : ℚ)), ("electricity_cost", (none : Option ℚ))] ≠
      some (some 0) := by
  exact ⟨by decide, by decide, by decide⟩

/-! ### N-way combine-all, Local File side
(n3rgy_csv_client._merge_json_files_into_jsonl)

This is the combine path that does zero-fill.  A resource JSON document is
keyed by its dotted classifier; readings are `[epoch_seconds, value]`
pairs. -/

/-- The parts of a processed resource JSON document that feed the merge. -/
structure ResourceDoc where
  resource_classifier : String
  readings : List (Int × ℚ)
deriving DecidableEq

/-- First dotted component of a classifier
(`resource_classifier.split('.')[0]`). -/
def classifierEnergyType (c : String) : String :=
  String.mk ((splitOnChar '.' c.toList).headD [])

/-- Category discrimination: the literal substring `cost` in the
classifier (`'cost' in resource_classifier`). -/
def classifierCategory (c : String) : String :=
  if containsChars "cost".toList c.toList then "cost" else "consumption"

/-- One step of the document-grouping loop: ensure the energy type's inner
dict exists, then assign the document under its category. -/
def groupStep (g : List (String × List (String × ResourceDoc))) (d : ResourceDoc) :
    List (String × List (String × ResourceDoc)) :=
  let et := classifierEnergyType d.resource_classifier
  let cat := classifierCategory d.resource_classifier
  let g2 := if dictContains et g then g else dictInsert et [] g
  dictModify et (dictInsert cat d) g2

/-- The document-grouping loop: a nested dict
energy type → category → document, later documents overwriting. -/
def groupDocs (docs : List ResourceDoc) : List (String × List (String × ResourceDoc)) :=
  docs.foldl groupStep []

/-- One output record of the JSONL merge; field values are JSON numbers. -/
structure N3Record where
  timestamp : Int
  timestamp_iso : String
  fields : List (String × ℚ)
deriving DecidableEq

/-- Rendering of `datetime.fromtimestamp(ts).strftime("%Y-%m-%dT%H:%M:%S")`
at timezone offset `tz` seconds. -/
def n3IsoOfTimestamp (tz : Int) (ts : Int) : String :=
  isoOfEpochMicro ((ts + tz) * 1000000)

/-- Body of the readings-collection loop for one reading under a fixed
`{type}_{category}` field name. -/
def readingStep (tz : Int) (fieldName : String) (m : List (Int × N3Record))
    (p : Int × ℚ) : List (Int × N3Record) :=
  let m2 := if dictContains p.1 m then m
    else dictInsert p.1 ⟨p.1, n3IsoOfTimestamp tz p.1, []⟩ m
  dictModify p.1 (fun r0 => { r0 with fields := dictInsert fieldName p.2 r0.fields }) m2

/-- Collection over one category entry of a resource type. -/
def collectCategory (tz : Int) (et : String) (m : List (Int × N3Record))
    (entry : String × ResourceDoc) : List (Int × N3Record) :=
  entry.2.readings.foldl (readingStep tz (et ++ "_" ++ entry.1)) m

/-- Collection over one resource-type group. -/
def collectGroup (tz : Int) (m : List (Int × N3Record))
    (g : String × List (String × ResourceDoc)) : List (Int × N3Record) :=
  g.2.foldl (collectCategory tz g.1) m

/-- The full `readings_by_timestamp` collection. -/
def collectReadings (tz : Int)
    (groups : List (String × List (String × ResourceDoc))) : List (Int × N3Record) :=
  groups.foldl (collectGroup tz) []

/-- The four known field names, in the source's fill order. -/
def fourFieldNames : List String :=
  ["electricity_consumption", "electricity_cost", "gas_consumption", "gas_cost"]

/-- One step of the write-loop fill: insert a zero field if absent. -/
def fillStep (fs : List (String × ℚ)) (name : String) : List (String × ℚ) :=
  if dictContains name fs then fs else dictInsert name 0 fs

/-- The write-loop fill: ensure all four fields exist, inserting 0 where
absent. -/
def fillMissingFields (r : N3Record) : N3Record :=
  { r with fields := fourFieldNames.foldl fillStep r.fields }

/-- Model of `_merge_json_files_into_jsonl` (readings part): group the
documents, collect readings by timestamp, emit records sorted by timestamp
with the four known fields zero-filled. -/
def mergeJsonFilesIntoJsonl (tz : Int) (docs : List ResourceDoc) :
    List (Int × N3Record) :=
  (List.insertionSort keyLE (collectReadings tz (groupDocs docs))).map
    (fun p => (p.1, fillMissingFields p.2))

/-- Membership-aware preservation of a predicate along `List.foldl`. -/
theorem foldl_preserve_mem {α β : Type} (P : β → Prop) (f : β → α → β) :
    ∀ (l : List α), (∀ b a, a ∈ l → P b → P (f b a)) →
      ∀ b : β, P b → P (l.foldl f b)
  | [], _, _, hb => hb
  | a :: l, hf, b, hb =>
    foldl_preserve_mem P f l
      (fun b2 a2 ha2 hb2 => hf b2 a2 (List.mem_cons_of_mem _ ha2) hb2)
      (f b a) (hf b a (List.mem_cons_self a l) hb)

/-- Grouping invariant: every document filed in the nested dict came from
the input, under its own energy type and category. -/
def groupedProp (docs : List ResourceDoc)
    (g : List (String × List (String × ResourceDoc))) : Prop :=
  ∀ p ∈ g, ∀ q ∈ p.2,
    q.2 ∈ docs ∧ p.1 = classifierEnergyType q.2.resource_classifier ∧
      q.1 = classifierCategory q.2.resource_classifier

theorem groupStep_spec {docs : List ResourceDoc} {d : ResourceDoc} (hd : d ∈ docs)
    {g : List (String × List (String × ResourceDoc))} (hg : groupedProp docs g) :
    groupedProp docs (groupStep g d) := by
  intro p hp q hq
  simp only [groupStep] at hp
  rcases mem_dictModify hp with hp2 | ⟨inner, hinner, hpe⟩
  · by_cases hc : dictContains (classifierEnergyType d.resource_classifier) g
    · exact hg p (by simpa [hc] using hp2) q hq
    · rcases mem_dictInsert (by simpa [hc] using hp2) with he | he
      · rw [he] at hq
        simp at hq
      · exact hg p he q hq
  · have hq2 : q ∈ dictInsert (classifierCategory d.resource_classifier) d inner := by
      rw [hpe] at hq
      simpa using hq
    have hp1 : p.1 = classifierEnergyType d.resource_classifier := by rw [hpe]
    rcases mem_dictInsert hq2 with he | he
    · rw [he, hp1]
      exact ⟨hd, rfl, rfl⟩
    · by_cases hc : dictContains (classifierEnergyType d.resource_classifier) g
      · have hmem : (classifierEnergyType d.resource_classifier, inner) ∈ g := by
          simpa [hc] using hinner
        have hres := hg _ hmem q he
        exact ⟨hres.1, hp1.trans hres.2.1, hres.2.2⟩
      · rcases mem_dictInsert (by simpa [hc] using hinner) with he2 | he2
        · have hin : inner = [] := by simpa using congrArg Prod.snd he2
          rw [hin] at he
          simp at he
        · have hres := hg _ he2 q he
          exact ⟨hres.1, hp1.trans hres.2.1, hres.2.2⟩

theorem groupDocs_spec (docs : List ResourceDoc) : groupedProp docs (groupDocs docs) := by
  rw [groupDocs]
  refine foldl_preserve_mem (groupedProp docs) groupStep docs
    (fun g d hd hg => groupStep_spec hd hg) [] ?_
  intro p hp
  simp at hp

/-- A `{type}_{category}` field name is sourced at timestamp `t` when some
input document of that type and category has a reading at `t`. -/
def fieldSource (docs : List ResourceDoc) (nm : String) (t : Int) : Prop :=
  ∃ d ∈ docs, classifierEnergyType d.resource_classifier ++ "_" ++
    classifierCategory d.resource_classifier = nm ∧ ∃ v, (t, v) ∈ d.readings

/-- Collection invariant: every field of every collected record traces to
an input reading of that field's resource type and category at that
record's timestamp. -/
def collectInv (docs : List ResourceDoc) (m : List (Int × N3Record)) : Prop :=
  ∀ p ∈ m, ∀ nm v, (nm, v) ∈ p.2.fields → fieldSource docs nm p.1

theorem readingStep_inv {docs : List ResourceDoc} (tz : Int) (nm : String)
    (q : Int × ℚ) (hsrc : fieldSource docs nm q.1)
    {m : List (Int × N3Record)} (hm : collectInv docs m) :
    collectInv docs (readingStep tz nm m q) := by
  intro p hp nm2 v2 hv2
  simp only [readingStep] at hp
  rcases mem_dictModify hp with hp2 | ⟨r0, hr0, hpe⟩
  · by_cases hc : dictContains q.1 m
    · exact hm p (by simpa [hc] using hp2) nm2 v2 hv2
    · rcases mem_dictInsert (by simpa [hc] using hp2) with he | he
      · rw [he] at hv2
        simp at hv2
      · exact hm p he nm2 v2 hv2
  · have hv2b : (nm2, v2) ∈ dictInsert nm q.2 r0.fields := by
      rw [hpe] at hv2
      simpa using hv2
    have hp1 : p.1 = q.1 := by rw [hpe]
    rcases mem_dictInsert hv2b with he | he
    · have hnm : nm2 = nm := by simpa using congrArg Prod.fst he
      rw [hnm, hp1]
      exact hsrc
    · by_cases hc : dictContains q.1 m
      · have := hm (q.1, r0) (by simpa [hc] using hr0) nm2 v2 he
        rwa [hp1]
      · rcases mem_dictInsert (by simpa [hc] using hr0) with he2 | he2
        · have hr0e : r0 = ⟨q.1, n3IsoOfTimestamp tz q.1, []⟩ := by
            simpa using congrArg Prod.snd he2
          rw [hr0e] at he
          simp at he
        · have := hm (q.1, r0) he2 nm2 v2 he
          rwa [hp1]

theorem collectCategory_inv {docs : List ResourceDoc} (tz : Int) (et : String)
    (entry : String × ResourceDoc) (hdoc : entry.2 ∈ docs)
    (het : et = classifierEnergyType entry.2.resource_classifier)
    (hcat : entry.1 = classifierCategory entry.2.resource_classifier)
    {m : List (Int × N3Record)} (hm : collectInv docs m) :
    collectInv docs (collectCategory tz et m entry) := by
  rw [collectCategory]
  refine foldl_preserve_mem (collectInv docs) _ entry.2.readings ?_ m hm
  intro m2 q hq hm2
  refine readingStep_inv tz _ q ?_ hm2
  exact ⟨entry.2, hdoc, by rw [het, hcat], ⟨q.2, by simpa using hq⟩⟩

theorem collectGroup_inv {docs : List ResourceDoc} (tz : Int)
    (g : String × List (String × ResourceDoc))
    (hg : ∀ q ∈ g.2, q.2 ∈ docs ∧ g.1 = classifierEnergyType q.2.resource_classifier ∧
      q.1 = classifierCategory q.2.resource_classifier)
    {m : List (Int × N3Record)} (hm : collectInv docs m) :
    collectInv docs (collectGroup tz m g) := by
  rw [collectGroup]
  refine foldl_preserve_mem (collectInv docs) _ g.2 ?_ m hm
  intro m2 entry hentry hm2
  obtain ⟨hdoc, het, hcat⟩ := hg entry hentry
  exact collectCategory_inv tz g.1 entry hdoc het hcat hm2

theorem collectReadings_inv (tz : Int) (docs : List ResourceDoc) :
    collectInv docs (collectReadings tz (groupDocs docs)) := by
  rw [collectReadings]
  refine foldl_preserve_mem (collectInv docs) _ (groupDocs docs) ?_ [] ?_
  · intro m g hgmem hm
    exact collectGroup_inv tz g (fun q hq => groupDocs_spec docs g hgmem q hq) hm
  · intro p hp
    simp at hp

theorem dictContains_insert_of_contains {K V : Type} [DecidableEq K] (k k2 : K)
    (v : V) (m : List (K × V)) (h : dictContains k2 m = true) :
    dictContains k2 (dictInsert k v m) = true := by
  by_cases hk : k2 = k
  · subst hk
    simp [dictContains]
  · simpa [dictContains, dictGet_insert_ne _ _ hk] using h

theorem fillStep_contains_self (fs : List (String × ℚ)) (name : String) :
    dictContains name (fillStep fs name) = true := by
  rw [fillStep]
  by_cases h : dictContains name fs
  · rwa [if_pos h]
  · rw [if_neg h]
    simp [dictContains]

theorem fillStep_contains_mono (fs : List (String × ℚ)) (name nm : String)
    (h : dictContains nm fs = true) : dictContains nm (fillStep fs name) = true := by
  rw [fillStep]
  by_cases hc : dictContains name fs
  · simpa [hc]
  · rw [if_neg (by simp [hc])]
    exact dictContains_insert_of_contains name nm 0 fs h

theorem foldl_fillStep_contains :
    ∀ (names : List String) (fs : List (String × ℚ)) (nm : String), nm ∈ names →
      dictContains nm (names.foldl fillStep fs) = true
  | [], _, _, h => absurd h (List.not_mem_nil _)
  | a :: rest, fs, nm, h => by
    rw [List.foldl_cons]
    rcases List.mem_cons.mp h with he | hr
    · subst he
      exact foldl_preserve_mem (fun fs2 => dictContains nm fs2 = true) fillStep rest
        (fun fs2 name _ h2 => fillStep_contains_mono fs2 name nm h2)
        (fillStep fs nm) (fillStep_contains_self fs nm)
    · exact foldl_fillStep_contains rest (fillStep fs a) nm hr

theorem fillStep_get_preserve (fs : List (String × ℚ)) (name nm : String)
    (h : (dictGet nm fs).isSome) : dictGet nm (fillStep fs name) = dictGet nm fs := by
  rw [fillStep]
  by_cases hc : dictContains name fs
  · simp [hc]
  · rw [if_neg (by simp [hc])]
    by_cases hk : nm = name
    · subst hk
      rw [dictContains] at hc
      exact absurd h hc
    · exact dictGet_insert_ne _ _ hk

theorem foldl_fillStep_get_zero :
    ∀ (names : List String) (fs : List (String × ℚ)) (nm : String), nm ∈ names →
      dictContains nm fs = false → dictGet nm (names.foldl fillStep fs) = some 0
  | [], _, _, h, _ => absurd h (List.not_mem_nil _)
  | a :: rest, fs, nm, h, hc => by
    rw [List.foldl_cons]
    by_cases he : nm = a
    · subst he
      have h1 : dictGet nm (fillStep fs nm) = some 0 := by
        rw [fillStep, if_neg (by simp [hc])]
        exact dictGet_insert_self nm 0 fs
      exact foldl_preserve_mem (fun fs2 => dictGet nm fs2 = some 0) fillStep rest
        (fun fs2 name _ h2 => by
          have h2b : dictGet nm fs2 = some 0 := h2
          show dictGet nm (fillStep fs2 name) = some 0
          rw [fillStep_get_preserve fs2 name nm (by simp [h2b])]
          exact h2b)
        (fillStep fs nm) h1
    · have hc2 : dictContains nm (fillStep fs a) = false := by
        rw [fillStep]
        by_cases hca : dictContains a fs
        · rwa [if_pos hca]
        · rw [if_neg hca]
          rw [dictContains, dictGet_insert_ne _ _ he]
          exact hc
      have hr : nm ∈ rest := by
        rcases List.mem_cons.mp h with he2 | hr2
        · exact absurd he2 he
        · exact hr2
      exact foldl_fillStep_get_zero rest (fillStep fs a) nm hr hc2

theorem fillMissingFields_contains (r : N3Record) (nm : String)
    (h : nm ∈ fourFieldNames) :
    dictContains nm (fillMissingFields r).fields = true :=
  foldl_fillStep_contains fourFieldNames r.fields nm h

theorem fillMissingFields_zero (r : N3Record) (nm : String) (h : nm ∈ fourFieldNames)
    (hc : dictContains nm r.fields = false) :
    dictGet nm (fillMissingFields r).fields = some 0 :=
  foldl_fillStep_get_zero fourFieldNames r.fields nm h hc

/-- C2, amended: the uniform zero-filled field set holds in the Local File
client's JSONL merge: every output record of
`_merge_json_files_into_jsonl` carries all four
electricity/gas × consumption/cost fields, and a field whose resource type
and category has no reading at that record's timestamp is 0.  (The
Glowmarkt-side `combine_all_resources_into_single_file` does not satisfy
the claim: see the counterexample.) -/
theorem c2_zero_fill_amended :
    ∀ (tz : Int) (docs : List ResourceDoc) (t : Int) (r : N3Record),
      (t, r) ∈ mergeJsonFilesIntoJsonl tz docs →
      ∀ nm ∈ fourFieldNames,
        dictContains nm r.fields = true ∧
        ((∀ d ∈ docs, classifierEnergyType d.resource_classifier ++ "_" ++
            classifierCategory d.resource_classifier = nm →
            ∀ p ∈ d.readings, p.1 ≠ t) →
          dictGet nm r.fields = some 0) := by
  intro tz docs t r hmem nm hnm
  rw [mergeJsonFilesIntoJsonl] at hmem
  rcases List.mem_map.mp hmem with ⟨p, hp, he⟩
  have ht : p.1 = t := by simpa using congrArg Prod.fst he
  have hr : fillMissingFields p.2 = r := by simpa using congrArg Prod.snd he
  have hp2 : p ∈ collectReadings tz (groupDocs docs) :=
    ((List.perm_insertionSort keyLE _).mem_iff).mp hp
  constructor
  · rw [← hr]
    exact fillMissingFields_contains p.2 nm hnm
  · intro hnone
    rw [← hr]
    apply fillMissingFields_zero p.2 nm hnm
    by_contra hcc
    have hsome : (dictGet nm p.2.fields).isSome := by
      rcases Bool.eq_false_or_eq_true (dictContains nm p.2.fields) with hb | hb
      · simpa [dictContains] using hb
      · exact absurd hb hcc
    have hmemf : nm ∈ p.2.fields.map Prod.fst := (dictGet_isSome_iff_mem _ _).mp hsome
    rcases List.mem_map.mp hmemf with ⟨q, hq, hq1⟩
    have hfs : fieldSource docs nm p.1 := by
      have := collectReadings_inv tz docs p hp2 q.1 q.2 (by simpa using hq)
      rwa [hq1] at this
    obtain ⟨d, hd, hname, v, hv⟩ := hfs
    rw [ht] at hv
    exact absurd rfl (hnone d hd hname (t, v) hv)

/-- Witness for the amended C2 on a single electricity-consumption
document: the emitted record carries all four fields, with the three
uncovered ones zero-filled. -/
theorem c2_zero_fill_amended_witness :
    (((100 : Int), (⟨100, n3IsoOfTimestamp 0 100,
      [("electricity_consumption", (5 : ℚ)), ("electricity_cost", 0),
       ("gas_consumption", 0), ("gas_cost", 0)]⟩ : N3Record)) ∈
        mergeJsonFilesIntoJsonl 0 [⟨"electricity.consumption", [(100, 5)]⟩]) ∧
    "gas_cost" ∈ fourFieldNames ∧
    (∀ d ∈ [(⟨"electricity.consumption", [(100, 5)]⟩ : ResourceDoc)],
      classifierEnergyType d.resource_classifier ++ "_" ++
        classifierCategory d.resource_classifier = "gas_cost" →
      ∀ p ∈ d.readings, p.1 ≠ (100 : Int)) ∧
    dictContains "gas_cost"
      [("electricity_consumption", (5 : ℚ)), ("electricity_cost", 0),
       ("gas_consumption", 0), ("gas_cost", 0)] = true ∧
    dictGet "gas_cost"
      [("electricity_consumption", (5 : ℚ)), ("electricity_cost", 0),
       ("gas_consumption", 0), ("gas_cost", 0)] = some 0 :=
  have h1 : ((100 : Int), (⟨100, n3IsoOfTimestamp 0 100,
      [("electricity_consumption", (5 : ℚ)), ("electricity_cost", 0),
       ("gas_consumption", 0), ("gas_cost", 0)]⟩ : N3Record)) ∈
        mergeJsonFilesIntoJsonl 0 [⟨"electricity.consumption", [(100, 5)]⟩] := by decide
  have h2 : "gas_cost" ∈ fourFieldNames := by decide
  have h3 : ∀ d ∈ [(⟨"electricity.consumption", [(100, 5)]⟩ : ResourceDoc)],
      classifierEnergyType d.resource_classifier ++ "_" ++
        classifierCategory d.resource_classifier = "gas_cost" →
      ∀ p ∈ d.readings, p.1 ≠ (100 : Int) := by decide
  have hmain := c2_zero_fill_amended 0 [⟨"electricity.consumption", [(100, 5)]⟩] 100 _ h1
    "gas_cost" h2
  ⟨h1, h2, h3, hmain.1, hmain.2 h3⟩
end EnergyPipeline
